import Mathlib

/-!
Verification of the salet sales-dashboard aggregation pipeline.

The definitions below are a shallow embedding of the proxy server's
`GET /proxy/notion` handler (record normalization + aggregation),
the `POST /proxy/notion` validation, and the client-side optimistic
update in `Dashboard.jsx`.  JavaScript numbers are modelled as `Int`
(amounts) and `Nat` (counts); JavaScript's falsiness on strings and
numbers is modelled explicitly; optional-chaining over possibly absent
object fields is modelled with `Option`, and the possibility of a
thrown `TypeError` during normalization with `Except Unit`.
Locale-dependent operations (`toLocaleString` month labels, currency
and date formatting) and the random color generator are abstracted as
parameters of an `AggEnv` environment, since no claim depends on their
concrete behavior.
-/

namespace Salet

/-- JavaScript's `String.prototype.padStart(n, c)`. -/
def padStart (s : String) (n : Nat) (c : Char) : String :=
  if n ≤ s.length then s else String.mk (List.replicate (n - s.length) c) ++ s

/-- JavaScript's `x || d` for a possibly absent string `x`
(`undefined`/`null` and the empty string are falsy). -/
def orElse (x : Option String) (d : String) : String :=
  match x with
  | none => d
  | some s => if s = "" then d else s

/-- Update the first element of a list satisfying `p` with `f`,
mirroring the JavaScript `arr.find(p)` followed by in-place mutation. -/
def updFirst {α : Type} (p : α → Prop) [DecidablePred p] (f : α → α) : List α → List α
  | [] => []
  | x :: xs => if p x then f x :: xs else x :: updFirst p f xs

/-! ## External record model (the Notion page shape the handler reads) -/

/-- A `{ content }` text node. -/
structure NotionText where
  content : Option String
deriving Repr, DecidableEq

/-- One element of a `title` / `rich_text` array: `{ text: { content } }`. -/
structure TitleItem where
  text : Option NotionText
deriving Repr, DecidableEq

/-- The `Name` property: `{ title: [...] }`.  `title = none` models a
present property object that lacks the `title` array. -/
structure NameProp where
  title : Option (List TitleItem)
deriving Repr, DecidableEq

/-- The `Product Name` property: `{ rich_text: [...] }`. -/
structure RichTextProp where
  rich_text : Option (List TitleItem)
deriving Repr, DecidableEq

/-- The inner `date` value `{ start }`. -/
structure DateValue where
  start : Option String
deriving Repr, DecidableEq

/-- The `Order Date` property: `{ date: { start } }`. -/
structure DateProp where
  date : Option DateValue
deriving Repr, DecidableEq

/-- The inner `select` value `{ name }`. -/
structure SelectValue where
  name : Option String
deriving Repr, DecidableEq

/-- The `Select` (payment method) property: `{ select: { name } }`. -/
structure SelectProp where
  select : Option SelectValue
deriving Repr, DecidableEq

/-- The `Amount` property: `{ number }`. -/
structure AmountProp where
  number : Option Int
deriving Repr, DecidableEq

/-- One row returned by the external database query: a page id plus the
five properties the handler reads.  Any property may be absent. -/
structure ExternalRecord where
  id : Option String
  amount : Option AmountProp
  name : Option NameProp
  productName : Option RichTextProp
  orderDate : Option DateProp
  selectProp : Option SelectProp
deriving Repr, DecidableEq

/-! ## Record normalization (server.js lines 215-220) -/

/-- The five-field normalized shape produced per record. -/
structure NormalizedSale where
  amount : Int
  customerName : String
  productName : String
  date : Option String
  paymentMethod : String
deriving Repr, DecidableEq

/-- Extraction `page.properties["Amount"]?.number || 0`. -/
def normAmount (r : ExternalRecord) : Int :=
  match r.amount with
  | none => 0
  | some ap => ap.number.getD 0

/-- Extraction `page.properties["Order Date"]?.date?.start || null`
(an empty-string `start` is falsy and becomes `null`). -/
def normDate (r : ExternalRecord) : Option String :=
  match r.orderDate.bind (fun dp => dp.date.bind (fun dv => dv.start)) with
  | none => none
  | some s => if s = "" then none else some s

/-- Extraction `page.properties["Select"]?.select?.name || "Unknown"`. -/
def normPayment (r : ExternalRecord) : String :=
  orElse (r.selectProp.bind (fun sp => sp.select.bind (fun sv => sv.name))) "Unknown"

/-- Extraction `page.properties["Name"]?.title[0]?.text?.content || "Unknown"`.
The optional chain guards only `properties["Name"]`: if the property is
present but its `title` array is absent, `title[0]` throws a
`TypeError`, modelled as `Except.error ()`. -/
def normCustomer (r : ExternalRecord) : Except Unit String :=
  match r.name with
  | none => .ok "Unknown"
  | some np =>
    match np.title with
    | none => .error ()
    | some items =>
      .ok (orElse (items.head?.bind (fun it => it.text.bind (fun t => t.content))) "Unknown")

/-- Extraction `page.properties["Product Name"]?.rich_text[0]?.text?.content || "Unknown"`,
with the same unguarded `rich_text[0]` access as `normCustomer`. -/
def normProduct (r : ExternalRecord) : Except Unit String :=
  match r.productName with
  | none => .ok "Unknown"
  | some rp =>
    match rp.rich_text with
    | none => .error ()
    | some items =>
      .ok (orElse (items.head?.bind (fun it => it.text.bind (fun t => t.content))) "Unknown")

/-- The whole per-record normalization step of the fetch handler. -/
def normalizeRecord (r : ExternalRecord) : Except Unit NormalizedSale :=
  match normCustomer r, normProduct r with
  | .ok c, .ok p =>
    .ok { amount := normAmount r, customerName := c, productName := p,
          date := normDate r, paymentMethod := normPayment r }
  | .error e, _ => .error e
  | _, .error e => .error e

/-! ## Aggregation (server.js lines 211-268) -/

/-- One monthly rollup bucket. -/
structure MonthlyBucket where
  name : String
  revenue : Int
  orders : Nat
  customers : Nat
deriving Repr, DecidableEq

/-- One per-product rollup bucket. -/
structure ProductBucket where
  name : String
  value : Int
  color : String
deriving Repr, DecidableEq

/-- One entry of the capped recent-orders list. -/
structure OrderEntry where
  id : String
  customer : String
  amount : String
  product : String
  date : String
  paymentMethod : String
  status : String
deriving Repr, DecidableEq

/-- Environment abstracting the locale-dependent and random parts of the
handler: `monthOf` is `new Date(d).toLocaleString("default", {month, year})`,
`fmtDate` is `toLocaleDateString("en-PH", ...)`, `fmtAmount` is
`toLocaleString("en-PH", {currency: "PHP"})`, and `colorAt idx` is the
random hex color generated while processing the record at index `idx`. -/
structure AggEnv where
  monthOf : String → String
  fmtDate : String → String
  fmtAmount : Int → String
  colorAt : Nat → String

/-- The monthly-bucket update for one sale (server.js lines 222-238). -/
def updateMonthly (mo : String → String) (ms : List MonthlyBucket) (s : NormalizedSale) :
    List MonthlyBucket :=
  match s.date with
  | none => ms
  | some d =>
    if ms.any (fun m => m.name = mo d) then
      updFirst (fun m => m.name = mo d)
        (fun m => { m with revenue := m.revenue + s.amount,
                           orders := m.orders + 1,
                           customers := m.customers + 1 }) ms
    else
      ms ++ [{ name := mo d, revenue := s.amount, orders := 1, customers := 1 }]

/-- The product-bucket update for one sale (server.js lines 240-250);
`color` is the freshly generated random color used if a new bucket is pushed. -/
def updateProducts (color : String) (ps : List ProductBucket) (s : NormalizedSale) :
    List ProductBucket :=
  if ps.any (fun p => p.name = s.productName) then
    updFirst (fun p => p.name = s.productName)
      (fun p => { p with value := p.value + s.amount }) ps
  else
    ps ++ [{ name := s.productName, value := s.amount, color := color }]

/-- The order entry built from the record at 0-based index `idx`
(server.js lines 252-267): the id falls back to `#` plus the zero-padded
1-based position when `page.id` is absent or empty. -/
def mkOrder (env : AggEnv) (idx : Nat) (pid : Option String) (s : NormalizedSale) : OrderEntry :=
  { id := orElse pid ("#" ++ padStart (toString (idx + 1)) 4 '0'),
    customer := s.customerName,
    amount := env.fmtAmount s.amount,
    product := s.productName,
    date := match s.date with
      | some d => env.fmtDate d
      | none => "-",
    paymentMethod := s.paymentMethod,
    status := "completed" }

/-- The three collections built by the fetch handler. -/
structure AggState where
  monthly : List MonthlyBucket
  products : List ProductBucket
  orders : List OrderEntry
deriving Repr, DecidableEq

/-- The body of one `rows.forEach((page, index) => ...)` iteration, given
the already-normalized sale of the record at index `idx`. -/
def aggStep (env : AggEnv) (st : AggState) (idx : Nat) (pid : Option String)
    (s : NormalizedSale) : AggState :=
  { monthly := updateMonthly env.monthOf st.monthly s,
    products := updateProducts (env.colorAt idx) st.products s,
    orders := if st.orders.length < 10 then st.orders ++ [mkOrder env idx pid s]
              else st.orders }

/-- The `rows.forEach` loop: normalize each record in order and fold it
into the state; a normalization `TypeError` aborts the whole handler. -/
def procRows (env : AggEnv) : AggState → Nat → List ExternalRecord → Except Unit AggState
  | st, _, [] => .ok st
  | st, idx, r :: rest =>
    match normalizeRecord r with
    | .error e => .error e
    | .ok s => procRows env (aggStep env st idx r.id s) (idx + 1) rest

/-- The whole data-shaping pass of `GET /proxy/notion` over the rows
returned by the external query. -/
def fetchAggregate (env : AggEnv) (rows : List ExternalRecord) : Except Unit AggState :=
  procRows env { monthly := [], products := [], orders := [] } 0 rows

/-! ## POST /proxy/notion validation (server.js lines 103-111) -/

/-- A JSON amount value as the untyped endpoint may receive it: a
number or a string (the repository's own form client keeps the amount
input as a string and sends `JSON.stringify(formData)`). -/
inductive JsAmount where
  | num (n : Int)
  | str (s : String)
deriving Repr, DecidableEq

/-- The request body of a create-sale call; each field may be absent. -/
structure CreateBody where
  amount : Option JsAmount
  customerName : Option String
  productName : Option String
  date : Option String
  paymentMethod : Option String
deriving Repr, DecidableEq

/-- JavaScript `!x` for a possibly absent string. -/
def strFalsy : Option String → Bool
  | none => true
  | some s => s = ""

/-- JavaScript `!x` for the possibly absent amount: the number 0 and
the empty string are falsy; every other string — `"0"` and `"0.00"`
included — is truthy. -/
def amountFalsy : Option JsAmount → Bool
  | none => true
  | some (.num n) => n = 0
  | some (.str s) => s = ""

/-- JavaScript's `parseFloat` on the values this endpoint receives: a
number parses to itself; a string is read as an optional sign, integer
digits and an optional fractional part, ignoring trailing characters;
a string with no leading numeric part yields NaN, modelled as `none`.
Leading whitespace, exponent notation and `Infinity` are not modelled;
no claim depends on them. -/
def parseFloat : JsAmount → Option Rat
  | .num n => some (n : Rat)
  | .str s =>
    let cs := s.toList
    let signSplit : Bool × List Char :=
      match cs with
      | '-' :: t => (true, t)
      | '+' :: t => (false, t)
      | _ => (false, cs)
    let intPart := signSplit.2.takeWhile (fun c : Char => c.isDigit)
    let rest := signSplit.2.dropWhile (fun c : Char => c.isDigit)
    let fracPart : List Char :=
      match rest with
      | '.' :: t => t.takeWhile (fun c : Char => c.isDigit)
      | _ => []
    if intPart.isEmpty && fracPart.isEmpty then none
    else
      let ip : Int := intPart.foldl (fun a (c : Char) => a * 10 + ((c.toNat : Int) - 48)) 0
      let fp : Int := fracPart.foldl (fun a (c : Char) => a * 10 + ((c.toNat : Int) - 48)) 0
      some (mkRat ((if signSplit.1 then -1 else 1) * (ip * 10 ^ fracPart.length + fp))
        (10 ^ fracPart.length))

/-- The handler's `!amount || !customerName || !productName || !date || !paymentMethod`. -/
def createInvalid (b : CreateBody) : Bool :=
  amountFalsy b.amount || strFalsy b.customerName || strFalsy b.productName ||
    strFalsy b.date || strFalsy b.paymentMethod

/-- Outcome of the POST handler up to the outbound call: either an
immediate 400 response, or the payload forwarded to the external API,
whose Amount field carries `parseFloat(amount)` (`none` models NaN). -/
inductive CreateResult where
  | clientError (status : Nat) (message : String)
  | forward (amount : Option Rat) (customerName productName date paymentMethod : String)
deriving Repr, DecidableEq

/-- The validation prefix of the POST /proxy/notion handler: a falsy
field short-circuits to a 400 before any outbound request is built;
otherwise the payload is built with `parseFloat(amount)`. -/
def createHandler (b : CreateBody) : CreateResult :=
  if createInvalid b then .clientError 400 "Missing required fields"
  else .forward (parseFloat (b.amount.getD (.num 0))) (b.customerName.getD "")
    (b.productName.getD "") (b.date.getD "") (b.paymentMethod.getD "")

/-! ## GET /proxy/notion response shaping (server.js lines 276-290) -/

/-- A failure of the outbound query: the external service's own status
code and response data, when a response exists at all. -/
structure ExternalFailure where
  responseStatus : Option Nat
  responseData : Option String
deriving Repr, DecidableEq

/-- The JSON response of the fetch endpoint. -/
inductive FetchResponse where
  | ok (monthly : List MonthlyBucket) (products : List ProductBucket)
      (orders : List OrderEntry)
  | fail (status : Nat) (success : Bool) (message : String) (errorData : Option String)
deriving Repr, DecidableEq

/-- The whole `GET /proxy/notion` handler: any throw inside the `try`
block — the outbound query failing or the aggregation itself throwing —
lands in the single `catch`, which always answers HTTP 500 with
`{success:false, message, error}`. -/
def fetchHandler (env : AggEnv) (q : Except ExternalFailure (List ExternalRecord)) :
    FetchResponse :=
  match q with
  | .error e => .fail 500 false "Failed to fetch data from Notion" e.responseData
  | .ok rows =>
    match fetchAggregate env rows with
    | .error _ => .fail 500 false "Failed to fetch data from Notion" none
    | .ok st => .ok st.monthly st.products st.orders

/-! ## Client-side optimistic update (Dashboard.jsx lines 129-196) -/

/-- The fixed palette used by the client for new product buckets. -/
def clientColors : List String :=
  ["#3B82F6", "#10B981", "#F59E0B", "#EF4444", "#8B5CF6", "#EC4899"]

/-- The `setMonthlyData` updater of `handleFormSubmit`: unlike the
server rule, `customers` is bumped only when no recent order already
carries the submitted customer name. -/
def clientMonthlyUpdate (month : String) (amountNum : Int) (customerName : String)
    (recentOrders : List OrderEntry) (prev : List MonthlyBucket) : List MonthlyBucket :=
  if prev.any (fun item => item.name = month) then
    let existingCustomer := recentOrders.any (fun o => o.customer = customerName)
    prev.map (fun item =>
      if item.name = month then
        { item with revenue := item.revenue + amountNum,
                    orders := item.orders + 1,
                    customers := if existingCustomer then item.customers
                                 else item.customers + 1 }
      else item)
  else
    prev ++ [{ name := month, revenue := amountNum, orders := 1, customers := 1 }]

/-- The `setProductData` updater of `handleFormSubmit`. -/
def clientProductUpdate (productName : String) (amountNum : Int)
    (prev : List ProductBucket) : List ProductBucket :=
  if prev.any (fun item => item.name = productName) then
    prev.map (fun item =>
      if item.name = productName then { item with value := item.value + amountNum }
      else item)
  else
    prev ++ [{ name := productName, value := amountNum,
               color := clientColors.getD (prev.length % clientColors.length) "" }]

/-! ## Specification-side measures -/

/-- Total revenue across a list of monthly buckets. -/
def sumRevenue (ms : List MonthlyBucket) : Int :=
  (ms.map (fun m => m.revenue)).sum

/-- Total value across a list of product buckets. -/
def sumValue (ps : List ProductBucket) : Int :=
  (ps.map (fun p => p.value)).sum

/-- Whether a record is a dated sale landing in the month labelled `n`. -/
def monthMatches (env : AggEnv) (r : ExternalRecord) (n : String) : Bool :=
  match normDate r with
  | some d => env.monthOf d = n
  | none => false

/-- The monthly-count contribution of one sale to the bucket labelled
`n`: 1 when the sale is dated and lands in that month, else 0. -/
def monthInd (mo : String → String) (s : NormalizedSale) (n : String) : Nat :=
  match s.date with
  | some d => if mo d = n then 1 else 0
  | none => 0

/-- Whether a record normalizes to the product name `n`. -/
def prodMatches (r : ExternalRecord) (n : String) : Bool :=
  match normProduct r with
  | .ok m => m = n
  | .error _ => false

/-- The numeric fields of a monthly bucket (the color-free projection
compared between server and client). -/
def mNum (b : MonthlyBucket) : String × Int × Nat × Nat :=
  (b.name, b.revenue, b.orders, b.customers)

/-- The numeric fields of a product bucket (drops the color, which is
random on the server and palette-based on the client). -/
def pNum (b : ProductBucket) : String × Int :=
  (b.name, b.value)

/-! ## Concrete fixtures used by witnesses and counterexamples -/

/-- A concrete environment: month labels and formatted dates are the raw
date string, amounts are printed with a `P` prefix, colors by index. -/
def trivEnv : AggEnv :=
  { monthOf := fun d => d,
    fmtDate := fun d => d,
    fmtAmount := fun a => "P" ++ toString a,
    colorAt := fun i => "#c" ++ toString i }

/-- A fully populated record: Alice buys a Widget for 100 in month `M1`. -/
def wR1 : ExternalRecord :=
  { id := some "page-a1",
    amount := some { number := some 100 },
    name := some { title := some [{ text := some { content := some "Alice" } }] },
    productName := some { rich_text := some [{ text := some { content := some "Widget" } }] },
    orderDate := some { date := some { start := some "M1" } },
    selectProp := some { select := some { name := some "Cash" } } }

/-- A record with no page id and no customer property: 50 for a Widget in `M1`. -/
def wR2 : ExternalRecord :=
  { id := none,
    amount := some { number := some 50 },
    name := none,
    productName := some { rich_text := some [{ text := some { content := some "Widget" } }] },
    orderDate := some { date := some { start := some "M1" } },
    selectProp := none }

/-- A record with no order date: 75 for a Gadget, never bucketed monthly. -/
def wR3 : ExternalRecord :=
  { id := some "page-c3",
    amount := some { number := some 75 },
    name := some { title := some [{ text := some { content := some "Bob" } }] },
    productName := some { rich_text := some [{ text := some { content := some "Gadget" } }] },
    orderDate := none,
    selectProp := some { select := some { name := some "Card" } } }

/-- The concrete input sequence used by the witnesses. -/
def wRows : List ExternalRecord := [wR1, wR2, wR3]

/-- The aggregate state the handler produces on `wRows`. -/
def wState : AggState :=
  match fetchAggregate trivEnv wRows with
  | .ok st => st
  | .error _ => { monthly := [], products := [], orders := [] }

/-- A record whose `Name` property is present but carries no `title`
array: `properties["Name"]?.title[0]` throws a `TypeError` on it. -/
def badRecord : ExternalRecord :=
  { id := none, amount := none, name := some { title := none },
    productName := none, orderDate := none, selectProp := none }

/-- A record whose customer name is present but empty. -/
def emptyNameRecord : ExternalRecord :=
  { id := none, amount := none,
    name := some { title := some [{ text := some { content := some "" } }] },
    productName := none, orderDate := none, selectProp := none }

/-- A record whose product name is present but empty. -/
def emptyProductRecord : ExternalRecord :=
  { id := none, amount := none, name := none,
    productName := some { rich_text := some [{ text := some { content := some "" } }] },
    orderDate := none, selectProp := none }

/-- A record whose payment method is present but empty. -/
def emptyPaymentRecord : ExternalRecord :=
  { id := none, amount := none, name := none, productName := none,
    orderDate := none, selectProp := some { select := some { name := some "" } } }

/-- A record whose order date is present but empty. -/
def emptyDateRecord : ExternalRecord :=
  { id := none, amount := none, name := none, productName := none,
    orderDate := some { date := some { start := some "" } }, selectProp := none }

/-- State fixture for the optimistic-update counterexample: one January
bucket built from one previous sale. -/
def cexMonthly : List MonthlyBucket :=
  [{ name := "Jan 2025", revenue := 100, orders := 1, customers := 1 }]

/-- Orders fixture: Alice already appears among the recent orders. -/
def cexOrders : List OrderEntry :=
  [{ id := "page-a1", customer := "Alice", amount := "P100", product := "Widget",
     date := "M1", paymentMethod := "Cash", status := "completed" }]

/-- The newly submitted sale: Alice again, in the existing month. -/
def cexSale : NormalizedSale :=
  { amount := 50, customerName := "Alice", productName := "Widget",
    date := some "Jan 2025", paymentMethod := "Cash" }

/-! ## Helper lemmas -/

/-- When normalization succeeds, the produced sale is exactly the tuple
of the per-field extractors. -/
theorem normalizeRecord_ok {r : ExternalRecord} {s : NormalizedSale}
    (h : normalizeRecord r = .ok s) :
    s.amount = normAmount r ∧ s.date = normDate r ∧ s.paymentMethod = normPayment r ∧
    normCustomer r = .ok s.customerName ∧ normProduct r = .ok s.productName := by
  cases hc : normCustomer r with
  | error e => simp [normalizeRecord, hc] at h
  | ok c =>
    cases hp : normProduct r with
    | error e => simp [normalizeRecord, hc, hp] at h
    | ok p =>
      simp only [normalizeRecord, hc, hp, Except.ok.injEq] at h
      subst h
      exact ⟨rfl, rfl, rfl, rfl, rfl⟩

/-- Updating the first `p`-element of a list through `f` shifts a summed
measure `g` by `δ`, provided some element satisfies `p`. -/
theorem sum_map_updFirst {α : Type} (p : α → Prop) [DecidablePred p] (f : α → α)
    (g : α → Int) (δ : Int) (hf : ∀ x, p x → g (f x) = g x + δ) :
    ∀ l : List α, l.any (fun x => p x) = true →
      ((updFirst p f l).map g).sum = (l.map g).sum + δ := by
  intro l
  induction l with
  | nil => intro h; simp at h
  | cons x xs ih =>
    intro h
    by_cases hx : p x
    · simp only [updFirst, if_pos hx, List.map_cons, List.sum_cons, hf x hx]
      ring
    · have hxs : xs.any (fun x => p x) = true := by
        simp only [List.any_cons, Bool.or_eq_true, decide_eq_true_eq] at h
        rcases h with h | h
        · exact absurd h hx
        · exact h
      simp only [updFirst, if_neg hx, List.map_cons, List.sum_cons, ih hxs]
      ring

/-- One monthly update adds the sale's amount to the total revenue when
the sale is dated, and nothing otherwise. -/
theorem sumRevenue_updateMonthly (mo : String → String) (ms : List MonthlyBucket)
    (s : NormalizedSale) :
    sumRevenue (updateMonthly mo ms s) =
      sumRevenue ms + (match s.date with | none => 0 | some _ => s.amount) := by
  cases hd : s.date with
  | none => simp [updateMonthly, hd]
  | some d =>
    simp only [updateMonthly, hd]
    by_cases hAny : ms.any (fun m => m.name = mo d) = true
    · rw [if_pos hAny]
      exact sum_map_updFirst (fun m => m.name = mo d)
        (fun m => { m with revenue := m.revenue + s.amount,
                           orders := m.orders + 1, customers := m.customers + 1 })
        (fun m => m.revenue) s.amount (fun x _ => rfl) ms hAny
    · rw [if_neg hAny]
      simp [sumRevenue]

/-- Through the whole row loop, total monthly revenue grows by exactly
the amounts of the rows whose normalized date is non-null. -/
theorem procRows_sumRevenue (env : AggEnv) :
    ∀ (rows : List ExternalRecord) (st : AggState) (idx : Nat) (st' : AggState),
      procRows env st idx rows = .ok st' →
      sumRevenue st'.monthly =
        sumRevenue st.monthly +
          ((rows.filter (fun r => (normDate r).isSome)).map normAmount).sum := by
  intro rows
  induction rows with
  | nil =>
    intro st idx st' h
    simp only [procRows, Except.ok.injEq] at h
    subst h
    simp
  | cons r rest ih =>
    intro st idx st' h
    simp only [procRows] at h
    cases hn : normalizeRecord r with
    | error e => rw [hn] at h; cases h
    | ok s =>
      rw [hn] at h
      have hfields := normalizeRecord_ok hn
      have hrec := ih (aggStep env st idx r.id s) (idx + 1) st' h
      have hstep : (aggStep env st idx r.id s).monthly =
          updateMonthly env.monthOf st.monthly s := rfl
      rw [hrec, hstep, sumRevenue_updateMonthly]
      cases hdr : normDate r with
      | none =>
        have hsd : s.date = none := by rw [hfields.2.1, hdr]
        rw [hsd]
        simp [List.filter_cons, hdr]
      | some d =>
        have hsd : s.date = some d := by rw [hfields.2.1, hdr]
        rw [hsd]
        simp [List.filter_cons, hdr, hfields.1]
        ring

/-- The function `updFirst` preserves the list of keys when `f` preserves the key. -/
theorem updFirst_map_key {α β : Type} (p : α → Prop) [DecidablePred p] (f : α → α)
    (key : α → β) (hk : ∀ x, key (f x) = key x) :
    ∀ l : List α, (updFirst p f l).map key = l.map key := by
  intro l
  induction l with
  | nil => rfl
  | cons x xs ih =>
    by_cases hx : p x
    · simp [updFirst, if_pos hx, hk]
    · simp [updFirst, if_neg hx, ih]

/-- Every element of a list survives `updFirst`, either untouched or
with `f` applied. -/
theorem mem_or_fmem_updFirst {α : Type} (p : α → Prop) [DecidablePred p] (f : α → α) :
    ∀ (l : List α) (a : α), a ∈ l → a ∈ updFirst p f l ∨ f a ∈ updFirst p f l := by
  intro l
  induction l with
  | nil => intro a ha; simp at ha
  | cons x xs ih =>
    intro a ha
    by_cases hx : p x
    · simp only [updFirst, if_pos hx]
      rcases List.mem_cons.mp ha with ha | ha
      · subst ha; right; exact List.mem_cons_self _ _
      · left; exact List.mem_cons_of_mem _ ha
    · simp only [updFirst, if_neg hx]
      rcases List.mem_cons.mp ha with ha | ha
      · subst ha; left; exact List.mem_cons_self _ _
      · rcases ih a ha with hm | hm
        · left; exact List.mem_cons_of_mem _ hm
        · right; exact List.mem_cons_of_mem _ hm

/-- Characterization of the elements after updating the (unique, by
`Nodup` keys) element whose key equals `m`: an element either carries
the updated measure (when its key is `m`) or is unchanged. -/
theorem mem_updFirst_field {α β : Type} (key : α → String) (val : α → β) (f : α → α)
    (m : String) (g : β → β)
    (hkeyf : ∀ x, key (f x) = key x) (hvalf : ∀ x, val (f x) = g (val x)) :
    ∀ l : List α, (l.map key).Nodup →
      ∀ b ∈ updFirst (fun x => key x = m) f l,
        ∃ a ∈ l, key a = key b ∧
          ((key b = m ∧ val b = g (val a)) ∨ (key b ≠ m ∧ val b = val a)) := by
  intro l
  induction l with
  | nil => intro _ b hb; simp [updFirst] at hb
  | cons x xs ih =>
    intro hnd b hb
    by_cases hx : key x = m
    · simp only [updFirst, if_pos hx] at hb
      rcases List.mem_cons.mp hb with hb | hb
      · subst hb
        exact ⟨x, List.mem_cons_self x xs, (hkeyf x).symm,
          Or.inl ⟨by rw [hkeyf x]; exact hx, hvalf x⟩⟩
      · have hxnotin : key x ∉ xs.map key := (List.nodup_cons.mp hnd).1
        have hbne : key b ≠ m := by
          intro hbm
          exact hxnotin (by rw [hx, ← hbm]; exact List.mem_map_of_mem key hb)
        exact ⟨b, List.mem_cons_of_mem x hb, rfl, Or.inr ⟨hbne, rfl⟩⟩
    · simp only [updFirst, if_neg hx] at hb
      rcases List.mem_cons.mp hb with hb | hb
      · subst hb
        exact ⟨b, List.mem_cons_self b xs, rfl, Or.inr ⟨hx, rfl⟩⟩
      · rcases ih (List.nodup_cons.mp hnd).2 b hb with ⟨a, ha, hk, hrest⟩
        exact ⟨a, List.mem_cons_of_mem x ha, hk, hrest⟩

/-- One product update adds the sale's amount to the total value. -/
theorem sumValue_updateProducts (c : String) (ps : List ProductBucket)
    (s : NormalizedSale) :
    sumValue (updateProducts c ps s) = sumValue ps + s.amount := by
  unfold updateProducts
  by_cases hAny : ps.any (fun p => p.name = s.productName) = true
  · rw [if_pos hAny]
    exact sum_map_updFirst (fun p => p.name = s.productName)
      (fun p => { p with value := p.value + s.amount })
      (fun p => p.value) s.amount (fun x _ => rfl) ps hAny
  · rw [if_neg hAny]
    simp [sumValue]

/-- The product update keeps bucket names unique. -/
theorem updateProducts_nodup (c : String) (ps : List ProductBucket) (s : NormalizedSale)
    (h : (ps.map (fun b => b.name)).Nodup) :
    ((updateProducts c ps s).map (fun b => b.name)).Nodup := by
  unfold updateProducts
  by_cases hAny : ps.any (fun p => p.name = s.productName) = true
  · rw [if_pos hAny,
      updFirst_map_key (fun p : ProductBucket => p.name = s.productName)
        (fun p : ProductBucket => { p with value := p.value + s.amount })
        (fun b : ProductBucket => b.name) (fun x => rfl)]
    exact h
  · rw [if_neg hAny]
    have hnotin : s.productName ∉ ps.map (fun b => b.name) := by
      intro hmem
      rcases List.mem_map.mp hmem with ⟨a, ha, hka⟩
      exact hAny (List.any_eq_true.mpr ⟨a, ha, by simp [hka]⟩)
    simp [List.nodup_append, h, hnotin]

/-- If no bucket carries name `n` after a product update, then none did
before and the sale's product name is not `n` either. -/
theorem updateProducts_name_absent (c : String) (ps : List ProductBucket)
    (s : NormalizedSale) (n : String)
    (h : ∀ b ∈ updateProducts c ps s, b.name ≠ n) :
    (∀ b ∈ ps, b.name ≠ n) ∧ s.productName ≠ n := by
  unfold updateProducts at h
  by_cases hAny : ps.any (fun p => p.name = s.productName) = true
  · rw [if_pos hAny] at h
    have hmem : ∀ b ∈ ps, b.name ≠ n := by
      intro b hb
      rcases mem_or_fmem_updFirst (fun p => p.name = s.productName)
        (fun p => { p with value := p.value + s.amount }) ps b hb with hm | hm
      · exact h b hm
      · have hfb := h _ hm
        exact hfb
    refine ⟨hmem, ?_⟩
    rcases List.any_eq_true.mp hAny with ⟨a, ha, hpa⟩
    have han : a.name = s.productName := by simpa using hpa
    rw [← han]
    exact hmem a ha
  · rw [if_neg hAny] at h
    constructor
    · intro b hb
      exact h b (List.mem_append_left _ hb)
    · exact h _ (List.mem_append_right _ (List.mem_singleton_self _))

/-- Effect of one product update on the per-name value table. -/
theorem updateProducts_value (c : String) (ps : List ProductBucket) (s : NormalizedSale)
    (v : String → Int)
    (hnd : (ps.map (fun b => b.name)).Nodup)
    (hv : ∀ b ∈ ps, b.value = v b.name)
    (hz : ∀ n, (∀ b ∈ ps, b.name ≠ n) → v n = 0) :
    ∀ b ∈ updateProducts c ps s,
      b.value = v b.name + (if s.productName = b.name then s.amount else 0) := by
  intro b hb
  unfold updateProducts at hb
  by_cases hAny : ps.any (fun p => p.name = s.productName) = true
  · rw [if_pos hAny] at hb
    rcases mem_updFirst_field (fun x => x.name) (fun x => x.value)
      (fun p => { p with value := p.value + s.amount }) s.productName
      (fun z => z + s.amount) (fun x => rfl) (fun x => rfl) ps hnd b hb with
      ⟨a, ha, hk, ⟨hbm, hval⟩ | ⟨hbm, hval⟩⟩
    · rw [hval, hv a ha, hk, if_pos hbm.symm]
    · rw [hval, hv a ha, hk, if_neg (fun hh => hbm hh.symm)]
      simp
  · rw [if_neg hAny] at hb
    rcases List.mem_append.mp hb with hb | hb
    · have hbn : b.name ≠ s.productName := by
        intro hh
        exact hAny (List.any_eq_true.mpr ⟨b, hb, by simp [hh]⟩)
      rw [hv b hb, if_neg (fun hh => hbn hh.symm)]
      simp
    · have hb' : b = { name := s.productName, value := s.amount, color := c } := by
        simpa using hb
      subst hb'
      have hz' : v s.productName = 0 := by
        apply hz
        intro b' hb' hname
        exact hAny (List.any_eq_true.mpr ⟨b', hb', by simp [hname]⟩)
      simp [hz']

/-- Through the whole row loop, total product value grows by the sum of
all normalized amounts, dated or not. -/
theorem procRows_sumValue (env : AggEnv) :
    ∀ (rows : List ExternalRecord) (st : AggState) (idx : Nat) (st' : AggState),
      procRows env st idx rows = .ok st' →
      sumValue st'.products = sumValue st.products + (rows.map normAmount).sum := by
  intro rows
  induction rows with
  | nil =>
    intro st idx st' h
    simp only [procRows, Except.ok.injEq] at h
    subst h
    simp
  | cons r rest ih =>
    intro st idx st' h
    simp only [procRows] at h
    cases hn : normalizeRecord r with
    | error e => rw [hn] at h; cases h
    | ok s =>
      rw [hn] at h
      have hfields := normalizeRecord_ok hn
      have hrec := ih (aggStep env st idx r.id s) (idx + 1) st' h
      have hstep : (aggStep env st idx r.id s).products =
          updateProducts (env.colorAt idx) st.products s := rfl
      rw [hrec, hstep, sumValue_updateProducts]
      simp only [List.map_cons, List.sum_cons, ← hfields.1]
      ring

/-- Through the whole row loop, each product bucket's value is the
initial table entry plus the summed amounts of the matching rows. -/
theorem procRows_products_value (env : AggEnv) :
    ∀ (rows : List ExternalRecord) (st : AggState) (idx : Nat) (st' : AggState)
      (v : String → Int),
      procRows env st idx rows = .ok st' →
      (st.products.map (fun b => b.name)).Nodup →
      (∀ b ∈ st.products, b.value = v b.name) →
      (∀ n, (∀ b ∈ st.products, b.name ≠ n) → v n = 0) →
      ∀ b ∈ st'.products,
        b.value = v b.name +
          ((rows.filter (fun r => prodMatches r b.name)).map normAmount).sum := by
  intro rows
  induction rows with
  | nil =>
    intro st idx st' v h hnd hv hz b hb
    simp only [procRows, Except.ok.injEq] at h
    subst h
    simpa using hv b hb
  | cons r rest ih =>
    intro st idx st' v h hnd hv hz b hb
    simp only [procRows] at h
    cases hn : normalizeRecord r with
    | error e => rw [hn] at h; cases h
    | ok s =>
      rw [hn] at h
      have hf := normalizeRecord_ok hn
      have hst1 : (aggStep env st idx r.id s).products =
          updateProducts (env.colorAt idx) st.products s := rfl
      have hnd1 : ((aggStep env st idx r.id s).products.map (fun b => b.name)).Nodup := by
        rw [hst1]; exact updateProducts_nodup _ _ _ hnd
      have hv1 : ∀ b' ∈ (aggStep env st idx r.id s).products,
          b'.value = v b'.name + (if s.productName = b'.name then s.amount else 0) := by
        rw [hst1]; exact updateProducts_value _ _ _ v hnd hv hz
      have hz1 : ∀ n, (∀ b' ∈ (aggStep env st idx r.id s).products, b'.name ≠ n) →
          v n + (if s.productName = n then s.amount else 0) = 0 := by
        intro n hnone
        rw [hst1] at hnone
        rcases updateProducts_name_absent _ _ _ n hnone with ⟨hbefore, hsn⟩
        rw [hz n hbefore, if_neg hsn]
        simp
      have hrec := ih (aggStep env st idx r.id s) (idx + 1) st'
        (fun n => v n + (if s.productName = n then s.amount else 0)) h hnd1 hv1 hz1 b hb
      rw [hrec]
      have hpm : prodMatches r b.name = decide (s.productName = b.name) := by
        simp [prodMatches, hf.2.2.2.2]
      by_cases hcase : s.productName = b.name
      · simp only [List.filter_cons, hpm, hcase, decide_eq_true_eq, List.map_cons,
          List.sum_cons, if_pos hcase]
        simp [← hf.1, hcase]
        ring
      · simp only [List.filter_cons, hpm, List.map_cons, List.sum_cons]
        simp [hcase]

/-! ## Claim theorems -/

/-- C1: for every input sequence of external records that the fetch
handler aggregates successfully, the revenues of the monthly buckets sum
to exactly the sum of the normalized amounts of the records whose
normalized date is non-null; a sale with null date leaves the monthly
buckets untouched (contributes to no bucket). -/
theorem claim1_monthly_revenue_sum (env : AggEnv) (rows : List ExternalRecord)
    (st : AggState) (h : fetchAggregate env rows = .ok st) :
    sumRevenue st.monthly =
      ((rows.filter (fun r => (normDate r).isSome)).map normAmount).sum ∧
    ∀ (ms : List MonthlyBucket) (s : NormalizedSale), s.date = none →
      updateMonthly env.monthOf ms s = ms := by
  constructor
  · have hmain := procRows_sumRevenue env rows _ 0 st h
    simpa [sumRevenue] using hmain
  · intro ms s hs
    simp [updateMonthly, hs]

/-- Witness for C1 on a concrete three-record input (one null date). -/
theorem claim1_witness :
    sumRevenue wState.monthly =
      ((wRows.filter (fun r => (normDate r).isSome)).map normAmount).sum ∧
    ∀ (ms : List MonthlyBucket) (s : NormalizedSale), s.date = none →
      updateMonthly trivEnv.monthOf ms s = ms :=
  claim1_monthly_revenue_sum trivEnv wRows wState rfl

/-- C2: for every successfully aggregated input sequence, the product
bucket values sum to the sum of all normalized amounts — null-date
records included — and each bucket's value is the summed amount of
exactly the rows normalizing to its product name. -/
theorem claim2_product_value_sum (env : AggEnv) (rows : List ExternalRecord)
    (st : AggState) (h : fetchAggregate env rows = .ok st) :
    sumValue st.products = (rows.map normAmount).sum ∧
    ∀ b ∈ st.products,
      b.value = ((rows.filter (fun r => prodMatches r b.name)).map normAmount).sum := by
  constructor
  · have hmain := procRows_sumValue env rows _ 0 st h
    simpa [sumValue] using hmain
  · intro b hb
    have hmain := procRows_products_value env rows _ 0 st (fun _ => 0) h
      (by simp) (by simp) (fun n _ => rfl) b hb
    simpa using hmain

/-- Witness for C2 on the concrete three-record input. -/
theorem claim2_witness :
    sumValue wState.products = (wRows.map normAmount).sum ∧
    ∀ b ∈ wState.products,
      b.value = ((wRows.filter (fun r => prodMatches r b.name)).map normAmount).sum :=
  claim2_product_value_sum trivEnv wRows wState rfl

/-- The monthly update keeps bucket names unique. -/
theorem updateMonthly_nodup (mo : String → String) (ms : List MonthlyBucket)
    (s : NormalizedSale) (h : (ms.map (fun b => b.name)).Nodup) :
    ((updateMonthly mo ms s).map (fun b => b.name)).Nodup := by
  cases hd : s.date with
  | none => simpa [updateMonthly, hd] using h
  | some d =>
    simp only [updateMonthly, hd]
    by_cases hAny : ms.any (fun m => m.name = mo d) = true
    · rw [if_pos hAny,
        updFirst_map_key (fun m : MonthlyBucket => m.name = mo d)
          (fun m : MonthlyBucket => { m with revenue := m.revenue + s.amount, orders := m.orders + 1, customers := m.customers + 1 })
          (fun b : MonthlyBucket => b.name) (fun x => rfl)]
      exact h
    · rw [if_neg hAny]
      have hnotin : mo d ∉ ms.map (fun b => b.name) := by
        intro hmem
        rcases List.mem_map.mp hmem with ⟨a, ha, hka⟩
        exact hAny (List.any_eq_true.mpr ⟨a, ha, by simp [hka]⟩)
      simp [List.nodup_append, h, hnotin]

/-- If no bucket carries name `n` after a monthly update, then none did
before and the sale contributes nothing to label `n`. -/
theorem updateMonthly_name_absent (mo : String → String) (ms : List MonthlyBucket)
    (s : NormalizedSale) (n : String)
    (h : ∀ b ∈ updateMonthly mo ms s, b.name ≠ n) :
    (∀ b ∈ ms, b.name ≠ n) ∧ monthInd mo s n = 0 := by
  cases hd : s.date with
  | none =>
    simp only [updateMonthly, hd] at h
    exact ⟨h, by simp [monthInd, hd]⟩
  | some d =>
    simp only [updateMonthly, hd] at h
    by_cases hAny : ms.any (fun m => m.name = mo d) = true
    · rw [if_pos hAny] at h
      have hmem : ∀ b ∈ ms, b.name ≠ n := by
        intro b hb
        rcases mem_or_fmem_updFirst (fun m => m.name = mo d)
          (fun m => { m with revenue := m.revenue + s.amount, orders := m.orders + 1, customers := m.customers + 1 }) ms b hb with hm | hm
        · exact h b hm
        · have hfb := h _ hm
          exact hfb
      refine ⟨hmem, ?_⟩
      rcases List.any_eq_true.mp hAny with ⟨a, ha, hpa⟩
      have han : a.name = mo d := by simpa using hpa
      have hdn : mo d ≠ n := by rw [← han]; exact hmem a ha
      simp [monthInd, hd, hdn]
    · rw [if_neg hAny] at h
      have hdn : mo d ≠ n := h _ (List.mem_append_right _ (List.mem_singleton_self _))
      refine ⟨fun b hb => h b (List.mem_append_left _ hb), ?_⟩
      simp [monthInd, hd, hdn]

/-- Effect of one monthly update on the per-label count table: `orders`
and `customers` both move by the sale's indicator. -/
theorem updateMonthly_counts (mo : String → String) (ms : List MonthlyBucket)
    (s : NormalizedSale) (c : String → Nat)
    (hnd : (ms.map (fun b => b.name)).Nodup)
    (hc : ∀ b ∈ ms, b.orders = c b.name ∧ b.customers = c b.name)
    (hz : ∀ n, (∀ b ∈ ms, b.name ≠ n) → c n = 0) :
    ∀ b ∈ updateMonthly mo ms s,
      b.orders = c b.name + monthInd mo s b.name ∧
      b.customers = c b.name + monthInd mo s b.name := by
  intro b hb
  cases hd : s.date with
  | none =>
    simp only [updateMonthly, hd] at hb
    have hcb := hc b hb
    simp [monthInd, hd, hcb.1, hcb.2]
  | some d =>
    simp only [updateMonthly, hd] at hb
    by_cases hAny : ms.any (fun m => m.name = mo d) = true
    · rw [if_pos hAny] at hb
      rcases mem_updFirst_field (fun x : MonthlyBucket => x.name)
        (fun x : MonthlyBucket => (x.orders, x.customers))
        (fun m : MonthlyBucket => { m with revenue := m.revenue + s.amount, orders := m.orders + 1, customers := m.customers + 1 }) (mo d)
        (fun z => (z.1 + 1, z.2 + 1)) (fun x => rfl) (fun x => rfl) ms hnd b hb with
        ⟨a, ha, hk, ⟨hbm, hval⟩ | ⟨hbm, hval⟩⟩
      · have h1 : b.orders = a.orders + 1 := congrArg Prod.fst hval
        have h2 : b.customers = a.customers + 1 := congrArg Prod.snd hval
        have hca := hc a ha
        rw [h1, h2, hca.1, hca.2, hk]
        simp [monthInd, hd, hbm]
      · have h1 : b.orders = a.orders := congrArg Prod.fst hval
        have h2 : b.customers = a.customers := congrArg Prod.snd hval
        have hca := hc a ha
        rw [h1, h2, hca.1, hca.2, hk]
        have hnm : ¬mo d = b.name := fun hh => hbm hh.symm
        simp [monthInd, hd, hnm]
    · rw [if_neg hAny] at hb
      rcases List.mem_append.mp hb with hb | hb
      · have hbn : b.name ≠ mo d := by
          intro hh
          exact hAny (List.any_eq_true.mpr ⟨b, hb, by simp [hh]⟩)
        have hcb := hc b hb
        rw [hcb.1, hcb.2]
        have hnm : ¬mo d = b.name := fun hh => hbn hh.symm
        simp [monthInd, hd, hnm]
      · have hb' : b = { name := mo d, revenue := s.amount, orders := 1, customers := 1 } := by
          simpa using hb
        subst hb'
        have hz' : c (mo d) = 0 := by
          apply hz
          intro b' hb' hname
          exact hAny (List.any_eq_true.mpr ⟨b', hb', by simp [hname]⟩)
        simp [monthInd, hd, hz']

/-- Through the whole row loop, each monthly bucket's `orders` and
`customers` both equal the initial table entry plus the number of rows
landing in that month. -/
theorem procRows_monthly_counts (env : AggEnv) :
    ∀ (rows : List ExternalRecord) (st : AggState) (idx : Nat) (st' : AggState)
      (c : String → Nat),
      procRows env st idx rows = .ok st' →
      (st.monthly.map (fun b => b.name)).Nodup →
      (∀ b ∈ st.monthly, b.orders = c b.name ∧ b.customers = c b.name) →
      (∀ n, (∀ b ∈ st.monthly, b.name ≠ n) → c n = 0) →
      ∀ b ∈ st'.monthly,
        b.orders = c b.name + (rows.filter (fun r => monthMatches env r b.name)).length ∧
        b.customers = c b.name + (rows.filter (fun r => monthMatches env r b.name)).length := by
  intro rows
  induction rows with
  | nil =>
    intro st idx st' c h hnd hc hz b hb
    simp only [procRows, Except.ok.injEq] at h
    subst h
    simpa using hc b hb
  | cons r rest ih =>
    intro st idx st' c h hnd hc hz b hb
    simp only [procRows] at h
    cases hn : normalizeRecord r with
    | error e => rw [hn] at h; cases h
    | ok s =>
      rw [hn] at h
      have hf := normalizeRecord_ok hn
      have hst1 : (aggStep env st idx r.id s).monthly =
          updateMonthly env.monthOf st.monthly s := rfl
      have hnd1 : ((aggStep env st idx r.id s).monthly.map (fun b => b.name)).Nodup := by
        rw [hst1]; exact updateMonthly_nodup _ _ _ hnd
      have hc1 : ∀ b' ∈ (aggStep env st idx r.id s).monthly,
          b'.orders = c b'.name + monthInd env.monthOf s b'.name ∧
          b'.customers = c b'.name + monthInd env.monthOf s b'.name := by
        rw [hst1]; exact updateMonthly_counts _ _ _ c hnd hc hz
      have hz1 : ∀ n, (∀ b' ∈ (aggStep env st idx r.id s).monthly, b'.name ≠ n) →
          c n + monthInd env.monthOf s n = 0 := by
        intro n hnone
        rw [hst1] at hnone
        rcases updateMonthly_name_absent _ _ _ n hnone with ⟨hbefore, hind⟩
        rw [hz n hbefore, hind]
      have hrec := ih (aggStep env st idx r.id s) (idx + 1) st'
        (fun n => c n + monthInd env.monthOf s n) h hnd1 hc1 hz1 b hb
      have hmm : monthInd env.monthOf s b.name =
          (if monthMatches env r b.name then 1 else 0) := by
        cases hdr : normDate r with
        | none => simp [monthInd, monthMatches, hf.2.1, hdr]
        | some d => simp [monthInd, monthMatches, hf.2.1, hdr]
      rcases hrec with ⟨ho, hcu⟩
      have ho' : b.orders = c b.name + monthInd env.monthOf s b.name +
          (rest.filter (fun r => monthMatches env r b.name)).length := ho
      have hcu' : b.customers = c b.name + monthInd env.monthOf s b.name +
          (rest.filter (fun r => monthMatches env r b.name)).length := hcu
      rw [hmm] at ho' hcu'
      by_cases hcase : monthMatches env r b.name = true
      · rw [if_pos hcase] at ho' hcu'
        simp only [List.filter_cons, hcase, if_true, List.length_cons]
        omega
      · rw [if_neg hcase] at ho' hcu'
        simp only [List.filter_cons, hcase]
        simp only [Bool.false_eq_true, if_false]
        omega

/-- C8: in every successfully aggregated run, each monthly bucket's
`customers` equals its `orders`, and both count the dated rows landing
in that month — the handler bumps `customers` once per sale, not per
distinct customer. -/
theorem claim8_customers_eq_orders (env : AggEnv) (rows : List ExternalRecord)
    (st : AggState) (h : fetchAggregate env rows = .ok st) :
    ∀ b ∈ st.monthly,
      b.customers = b.orders ∧
      b.orders = (rows.filter (fun r => monthMatches env r b.name)).length := by
  intro b hb
  have hmain := procRows_monthly_counts env rows _ 0 st (fun _ => 0) h
    (by simp) (by simp) (fun n _ => rfl) b hb
  refine ⟨?_, ?_⟩
  · rw [hmain.2, hmain.1]
  · simpa using hmain.1

/-- Witness for C8: the single month bucket built from the concrete
three-record input has customers = orders = 2 dated sales. -/
theorem claim8_witness :
    (2 : Nat) = 2 ∧
    (2 : Nat) = (wRows.filter (fun r => monthMatches trivEnv r "M1")).length :=
  claim8_customers_eq_orders trivEnv wRows wState rfl
    { name := "M1", revenue := 150, orders := 2, customers := 2 } (by decide)

/-- Through the whole row loop, the orders list receives the first
`10 - |orders|` rows in input order, each entry built from the row's
global 0-based index. -/
theorem procRows_orders (env : AggEnv) :
    ∀ (rows : List ExternalRecord) (st : AggState) (idx : Nat) (st' : AggState),
      procRows env st idx rows = .ok st' →
      ∃ tl : List OrderEntry,
        st'.orders = st.orders ++ tl ∧
        tl.length = min (10 - st.orders.length) rows.length ∧
        ∀ (j : Nat) (hj : j < tl.length), ∃ (hr : j < rows.length) (s : NormalizedSale),
          normalizeRecord (rows.get ⟨j, hr⟩) = .ok s ∧
          tl.get ⟨j, hj⟩ = mkOrder env (idx + j) (rows.get ⟨j, hr⟩).id s := by
  intro rows
  induction rows with
  | nil =>
    intro st idx st' h
    simp only [procRows, Except.ok.injEq] at h
    subst h
    exact ⟨[], by simp, by simp, fun j hj => absurd hj (by simp)⟩
  | cons r rest ih =>
    intro st idx st' h
    simp only [procRows] at h
    cases hn : normalizeRecord r with
    | error e => rw [hn] at h; cases h
    | ok s =>
      rw [hn] at h
      rcases ih _ _ _ h with ⟨tl1, heq, hlen, hget⟩
      by_cases hlt : st.orders.length < 10
      · have hord : (aggStep env st idx r.id s).orders =
            st.orders ++ [mkOrder env idx r.id s] := by
          simp [aggStep, hlt]
        refine ⟨mkOrder env idx r.id s :: tl1, ?_, ?_, ?_⟩
        · rw [heq, hord]
          simp
        · have hlen1 : tl1.length = min (10 - (st.orders.length + 1)) rest.length := by
            rw [hlen, hord]
            simp
          rw [List.length_cons, hlen1, List.length_cons]
          omega
        · intro j hj
          cases j with
          | zero =>
            exact ⟨Nat.succ_pos _, s, hn, rfl⟩
          | succ k =>
            have hk : k < tl1.length := Nat.lt_of_succ_lt_succ (by simpa using hj)
            rcases hget k hk with ⟨hr, s', hns', hgets'⟩
            have hr' : k + 1 < (r :: rest).length := by
              simpa using Nat.succ_lt_succ hr
            refine ⟨hr', s', hns', ?_⟩
            have hidx : idx + 1 + k = idx + (k + 1) := by omega
            calc (mkOrder env idx r.id s :: tl1).get ⟨k + 1, hj⟩
                = tl1.get ⟨k, hk⟩ := rfl
              _ = mkOrder env (idx + 1 + k) (rest.get ⟨k, hr⟩).id s' := hgets'
              _ = mkOrder env (idx + (k + 1)) ((r :: rest).get ⟨k + 1, hr'⟩).id s' := by
                  rw [hidx, List.get_cons_succ]
      · have hord : (aggStep env st idx r.id s).orders = st.orders := by
          simp [aggStep, hlt]
        have hlen0 : tl1.length = 0 := by
          rw [hlen, hord]
          omega
        have htl1 : tl1 = [] := List.length_eq_zero.mp hlen0
        subst htl1
        refine ⟨[], by rw [heq, hord], ?_, fun j hj => absurd hj (by simp)⟩
        simp only [List.length_nil, List.length_cons]
        omega

/-- C3: in every successfully aggregated run the orders list has length
`min 10 n`, its `i`-th entry is derived from the `i`-th input record (so
the first 10 records, in input order), and an entry whose source record
has no page id gets the zero-padded `#` id built from the record's
1-based position in the full input sequence. -/
theorem claim3_orders_shape (env : AggEnv) (rows : List ExternalRecord)
    (st : AggState) (h : fetchAggregate env rows = .ok st) :
    st.orders.length = min 10 rows.length ∧
    (∀ i : Fin st.orders.length, ∃ (hr : i.1 < rows.length) (s : NormalizedSale),
      normalizeRecord (rows.get ⟨i.1, hr⟩) = .ok s ∧
      st.orders.get i = mkOrder env i.1 (rows.get ⟨i.1, hr⟩).id s) ∧
    (∀ i : Fin st.orders.length,
      (∃ hr : i.1 < rows.length, (rows.get ⟨i.1, hr⟩).id = none) →
      (st.orders.get i).id = "#" ++ padStart (toString (i.1 + 1)) 4 '0') := by
  rcases procRows_orders env rows _ 0 st h with ⟨tl, heq, hlen, hget⟩
  have horders : st.orders = tl := by simpa using heq
  have hmain : ∀ i : Fin st.orders.length, ∃ (hr : i.1 < rows.length)
      (s : NormalizedSale), normalizeRecord (rows.get ⟨i.1, hr⟩) = .ok s ∧
      st.orders.get i = mkOrder env i.1 (rows.get ⟨i.1, hr⟩).id s := by
    intro i
    have hj : i.1 < tl.length := by rw [← horders]; exact i.2
    rcases hget i.1 hj with ⟨hr, s, hns, hgets⟩
    rw [Nat.zero_add] at hgets
    refine ⟨hr, s, hns, ?_⟩
    rw [List.get_of_eq horders i]
    exact hgets
  refine ⟨?_, hmain, ?_⟩
  · rw [horders, hlen]
    simp
  · intro i hid
    rcases hid with ⟨hr, hid⟩
    rcases hmain i with ⟨hr', s, hns, hgm⟩
    have hid' : (rows.get ⟨i.1, hr'⟩).id = none := hid
    rw [hgm]
    have hidproj : (mkOrder env i.1 (rows.get ⟨i.1, hr'⟩).id s).id =
        orElse (rows.get ⟨i.1, hr'⟩).id ("#" ++ padStart (toString (i.1 + 1)) 4 '0') := rfl
    rw [hidproj, hid']
    rfl

/-- Mapping an update-if-key-matches function over a list with no
matching key is the identity. -/
theorem map_ite_id {α : Type} (key : α → String) (f : α → α) (m : String) :
    ∀ l : List α, (∀ y ∈ l, key y ≠ m) →
      l.map (fun y => if key y = m then f y else y) = l := by
  intro l
  induction l with
  | nil => intro _; rfl
  | cons z zs ih =>
    intro hz
    rw [List.map_cons, if_neg (hz z (List.mem_cons_self z zs)),
      ih (fun y hy => hz y (List.mem_cons_of_mem z hy))]

/-- Under unique keys, the client's map-all-matches update coincides
with the server's update-first-match. -/
theorem map_ite_eq_updFirst {α : Type} (key : α → String) (f : α → α) (m : String) :
    ∀ l : List α, (l.map key).Nodup →
      l.map (fun x => if key x = m then f x else x) =
        updFirst (fun x => key x = m) f l := by
  intro l
  induction l with
  | nil => intro _; rfl
  | cons x xs ih =>
    intro hnd
    by_cases hx : key x = m
    · simp only [List.map_cons, updFirst]
      rw [if_pos hx, if_pos hx]
      congr 1
      have hnone : ∀ y ∈ xs, key y ≠ m := by
        intro y hy hym
        have hxn : key x ∉ xs.map key := (List.nodup_cons.mp hnd).1
        exact hxn (by rw [hx, ← hym]; exact List.mem_map_of_mem key hy)
      exact map_ite_id key f m xs hnone
    · simp only [List.map_cons, updFirst]
      rw [if_neg hx, if_neg hx]
      congr 1
      exact ih (List.nodup_cons.mp hnd).2

/-- C5 counterexample: with one existing January bucket, a recent order
already carrying customer `Alice`, and a new January sale by `Alice`,
the client-side optimistic update leaves `customers` at 1 while the
server-side rule moves it to 2 — the numeric monthly fields differ. -/
theorem claim5_counterexample :
    (clientMonthlyUpdate "Jan 2025" 50 "Alice" cexOrders cexMonthly).map mNum ≠
      (updateMonthly (fun d => d) cexMonthly cexSale).map mNum := by
  decide

/-- C5 amended: for a dated sale, the optimistic update reproduces the
server rule's product-bucket numeric fields exactly (given unique
bucket names), and reproduces the monthly-bucket numeric fields
whenever the sale's month is new to the state or the submitted customer
name does not occur among the recent orders; when the month exists and
the customer is already listed, the client skips the `customers`
increment that the server rule performs. -/
theorem claim5_amended (env : AggEnv) (c : String) (ms : List MonthlyBucket)
    (ps : List ProductBucket) (ords : List OrderEntry) (s : NormalizedSale) (d : String)
    (hd : s.date = some d)
    (hm : (ms.map (fun b => b.name)).Nodup) (hp : (ps.map (fun b => b.name)).Nodup)
    (hcust : ms.any (fun m => m.name = env.monthOf d) = true →
      ords.any (fun o => o.customer = s.customerName) = false) :
    (clientProductUpdate s.productName s.amount ps).map pNum =
      (updateProducts c ps s).map pNum ∧
    (clientMonthlyUpdate (env.monthOf d) s.amount s.customerName ords ms).map mNum =
      (updateMonthly env.monthOf ms s).map mNum := by
  constructor
  · simp only [clientProductUpdate, updateProducts]
    by_cases hAny : ps.any (fun p => p.name = s.productName) = true
    · rw [if_pos hAny, if_pos hAny,
        map_ite_eq_updFirst (fun b : ProductBucket => b.name)
          (fun item : ProductBucket => { item with value := item.value + s.amount })
          s.productName ps hp]
    · rw [if_neg hAny, if_neg hAny]
      simp [pNum]
  · simp only [clientMonthlyUpdate, updateMonthly, hd]
    by_cases hAny : ms.any (fun m => m.name = env.monthOf d) = true
    · have hex : ords.any (fun o => o.customer = s.customerName) = false := hcust hAny
      rw [if_pos hAny, if_pos hAny]
      simp only [hex, Bool.false_eq_true, if_false]
      rw [map_ite_eq_updFirst (fun b : MonthlyBucket => b.name)
        (fun item : MonthlyBucket => { item with revenue := item.revenue + s.amount, orders := item.orders + 1, customers := item.customers + 1 })
        (env.monthOf d) ms hm]
    · rw [if_neg hAny, if_neg hAny]

/-- Witness for the amended C5: new sale by a customer not in the (empty)
orders list against an existing month bucket and empty product state. -/
theorem claim5_witness :
    (clientProductUpdate cexSale.productName cexSale.amount []).map pNum =
      (updateProducts "#c0" [] cexSale).map pNum ∧
    (clientMonthlyUpdate (trivEnv.monthOf "Jan 2025") cexSale.amount
        cexSale.customerName [] cexMonthly).map mNum =
      (updateMonthly trivEnv.monthOf cexMonthly cexSale).map mNum :=
  claim5_amended trivEnv "#c0" cexMonthly [] [] cexSale "Jan 2025" rfl
    (by decide) (by simp) (fun _ => rfl)

/-- C4 counterexample: a record whose `Name` property is present but
lacks the `title` array makes normalization throw instead of degrading
to a default — the error branch is reachable, refuting the claim that
normalization never fails on malformed property shapes. -/
theorem claim4_counterexample : normalizeRecord badRecord = .error () := rfl

/-- C4 amended: normalization never fails and substitutes defaults,
provided every present `Name` property carries its `title` array and
every present `Product Name` property carries its `rich_text` array;
all other absences degrade to defaults. -/
theorem claim4_amended (r : ExternalRecord)
    (hn : ∀ np, r.name = some np → np.title ≠ none)
    (hp : ∀ rp, r.productName = some rp → rp.rich_text ≠ none) :
    ∃ s : NormalizedSale, normalizeRecord r = .ok s ∧
      s.amount = normAmount r ∧ s.date = normDate r ∧
      s.paymentMethod = normPayment r := by
  have hc : ∃ c, normCustomer r = .ok c := by
    cases hname : r.name with
    | none => exact ⟨"Unknown", by simp [normCustomer, hname]⟩
    | some np =>
      cases ht : np.title with
      | none => exact absurd ht (hn np hname)
      | some items =>
        exact ⟨orElse (items.head?.bind (fun it => it.text.bind (fun t => t.content)))
          "Unknown", by simp [normCustomer, hname, ht]⟩
  have hpr : ∃ p, normProduct r = .ok p := by
    cases hpn : r.productName with
    | none => exact ⟨"Unknown", by simp [normProduct, hpn]⟩
    | some rp =>
      cases ht : rp.rich_text with
      | none => exact absurd ht (hp rp hpn)
      | some items =>
        exact ⟨orElse (items.head?.bind (fun it => it.text.bind (fun t => t.content)))
          "Unknown", by simp [normProduct, hpn, ht]⟩
  rcases hc with ⟨c, hc⟩
  rcases hpr with ⟨p, hpr⟩
  exact ⟨{ amount := normAmount r, customerName := c, productName := p,
           date := normDate r, paymentMethod := normPayment r },
    by simp [normalizeRecord, hc, hpr], rfl, rfl, rfl⟩

/-- Witness for the amended C4 at a record with an absent customer
property and a well-formed product property. -/
theorem claim4_witness :
    ∃ s : NormalizedSale, normalizeRecord wR2 = .ok s ∧
      s.amount = normAmount wR2 ∧ s.date = normDate wR2 ∧
      s.paymentMethod = normPayment wR2 := by
  have h1 : ∀ np, wR2.name = some np → np.title ≠ none := by
    intro np hnp
    simp [wR2] at hnp
  have h2 : ∀ rp, wR2.productName = some rp → rp.rich_text ≠ none := by
    intro rp hrp
    have hrp' : rp = { rich_text := some [{ text := some { content := some "Widget" } }] } := by
      have := hrp.symm
      simp only [wR2, Option.some.injEq] at this
      exact this
    rw [hrp']
    simp
  exact claim4_amended wR2 h1 h2

/-- C10: the normalization defaults trigger on present-but-falsy values,
not only on absent properties: an empty-string customer name, product
name, or payment method normalizes to `"Unknown"`, and an empty-string
date normalizes to `null`. -/
theorem claim10_falsy_defaults :
    (∀ (r : ExternalRecord) (np : NameProp) (it : TitleItem) (rest : List TitleItem)
      (t : NotionText), r.name = some np → np.title = some (it :: rest) →
      it.text = some t → t.content = some "" → normCustomer r = .ok "Unknown") ∧
    (∀ (r : ExternalRecord) (rp : RichTextProp) (it : TitleItem) (rest : List TitleItem)
      (t : NotionText), r.productName = some rp → rp.rich_text = some (it :: rest) →
      it.text = some t → t.content = some "" → normProduct r = .ok "Unknown") ∧
    (∀ (r : ExternalRecord) (sp : SelectProp) (sv : SelectValue),
      r.selectProp = some sp → sp.select = some sv → sv.name = some "" →
      normPayment r = "Unknown") ∧
    (∀ (r : ExternalRecord) (dp : DateProp) (dv : DateValue),
      r.orderDate = some dp → dp.date = some dv → dv.start = some "" →
      normDate r = none) := by
  refine ⟨?_, ?_, ?_, ?_⟩
  · intro r np it rest t h1 h2 h3 h4
    simp [normCustomer, h1, h2, h3, h4, orElse]
  · intro r rp it rest t h1 h2 h3 h4
    simp [normProduct, h1, h2, h3, h4, orElse]
  · intro r sp sv h1 h2 h3
    simp [normPayment, h1, h2, h3, orElse]
  · intro r dp dv h1 h2 h3
    simp [normDate, h1, h2, h3]

/-- Witness for C10 at four concrete records carrying empty strings. -/
theorem claim10_witness :
    normCustomer emptyNameRecord = .ok "Unknown" ∧
    normProduct emptyProductRecord = .ok "Unknown" ∧
    normPayment emptyPaymentRecord = "Unknown" ∧
    normDate emptyDateRecord = none :=
  ⟨claim10_falsy_defaults.1 emptyNameRecord _ _ [] _ rfl rfl rfl rfl,
   claim10_falsy_defaults.2.1 emptyProductRecord _ _ [] _ rfl rfl rfl rfl,
   claim10_falsy_defaults.2.2.1 emptyPaymentRecord _ _ rfl rfl rfl,
   claim10_falsy_defaults.2.2.2 emptyDateRecord _ _ rfl rfl rfl⟩

/-- Witness for C3 on the concrete three-record input, whose second
record has no page id. -/
theorem claim3_witness :
    wState.orders.length = min 10 wRows.length ∧
    (∀ i : Fin wState.orders.length, ∃ (hr : i.1 < wRows.length) (s : NormalizedSale),
      normalizeRecord (wRows.get ⟨i.1, hr⟩) = .ok s ∧
      wState.orders.get i = mkOrder trivEnv i.1 (wRows.get ⟨i.1, hr⟩).id s) ∧
    (∀ i : Fin wState.orders.length,
      (∃ hr : i.1 < wRows.length, (wRows.get ⟨i.1, hr⟩).id = none) →
      (wState.orders.get i).id = "#" ++ padStart (toString (i.1 + 1)) 4 '0') :=
  claim3_orders_shape trivEnv wRows wState rfl

/-- C6: a create-sale request with any of the five fields absent is
answered with HTTP 400 and the missing-fields message; the handler
short-circuits before building the outbound payload, so no `forward`
(outbound call) is produced. -/
theorem claim6_missing_fields_rejected (b : CreateBody)
    (h : b.amount = none ∨ b.customerName = none ∨ b.productName = none ∨
         b.date = none ∨ b.paymentMethod = none) :
    createHandler b = .clientError 400 "Missing required fields" := by
  have hc : createInvalid b = true := by
    rcases h with h | h | h | h | h <;>
      simp [createInvalid, h, amountFalsy, strFalsy]
  simp [createHandler, hc]

/-- Witness for C6 at a concrete body missing its date. -/
theorem claim6_witness :
    createHandler { amount := some (.num 10), customerName := some "A",
                    productName := some "B", date := none,
                    paymentMethod := some "Cash" } =
      .clientError 400 "Missing required fields" :=
  claim6_missing_fields_rejected _ (by simp)

/-- C9 counterexample: the falsiness check does not keep amount-0 sales
out of the gateway.  The endpoint reads untyped JSON, and the
repository's own form client sends the amount as a string, so an amount
arriving as the truthy string `"0.00"` passes `!amount` and the handler
forwards the payload with `parseFloat("0.00") = 0` as the created
record's Amount — an amount-0 sale is created through the gateway,
refuting the claim's final clause. -/
theorem claim9_counterexample :
    createHandler { amount := some (.str "0.00"), customerName := some "Alice",
                    productName := some "Widget", date := some "2025-01-01",
                    paymentMethod := some "Cash" } =
      .forward (some 0) "Alice" "Widget" "2025-01-01" "Cash" := by
  decide

/-- C9 amended: the validation rejects present-but-falsy fields — an
amount present as the number 0, or an empty string in any of the five
fields — with the same 400 missing-fields response and no outbound
call; but a string-typed amount is rejected only when empty, so a
truthy numeric string such as `"0.00"` passes validation and an
amount-0 sale can still be created through the gateway. -/
theorem claim9_amended (b : CreateBody)
    (h : b.amount = some (.num 0) ∨ b.customerName = some "" ∨ b.productName = some "" ∨
         b.date = some "" ∨ b.paymentMethod = some "") :
    createHandler b = .clientError 400 "Missing required fields" := by
  have hc : createInvalid b = true := by
    rcases h with h | h | h | h | h <;>
      simp [createInvalid, h, amountFalsy, strFalsy]
  simp [createHandler, hc]

/-- Witness for the amended C9 at a concrete body whose amount is the
number 0. -/
theorem claim9_witness :
    createHandler { amount := some (.num 0), customerName := some "A",
                    productName := some "B", date := some "2025-01-01",
                    paymentMethod := some "Cash" } =
      .clientError 400 "Missing required fields" :=
  claim9_amended _ (by simp)

/-- C7: every failure response of `GET /proxy/notion` — whether the
outbound query failed (with any status code the external service chose)
or the aggregation itself threw — carries HTTP status exactly 500,
`success = false`, and the generic message. -/
theorem claim7_fetch_failure_500 (env : AggEnv)
    (q : Except ExternalFailure (List ExternalRecord))
    (st : Nat) (succ : Bool) (msg : String) (err : Option String)
    (h : fetchHandler env q = .fail st succ msg err) :
    st = 500 ∧ succ = false ∧ msg = "Failed to fetch data from Notion" := by
  cases q with
  | error e =>
    simp [fetchHandler] at h
    exact ⟨h.1.symm, h.2.1, h.2.2.1.symm⟩
  | ok rows =>
    simp only [fetchHandler] at h
    cases hagg : fetchAggregate env rows with
    | error e =>
      rw [hagg] at h
      simp at h
      exact ⟨h.1.symm, h.2.1, h.2.2.1.symm⟩
    | ok stA =>
      rw [hagg] at h
      simp at h

/-- Witness for C7: a query failure where the external service answered
404 with some payload is still reported as a 500. -/
theorem claim7_witness :
    (500 : Nat) = 500 ∧ false = false ∧
      "Failed to fetch data from Notion" = "Failed to fetch data from Notion" :=
  claim7_fetch_failure_500 trivEnv
    (.error { responseStatus := some 404, responseData := some "not found" })
    500 false "Failed to fetch data from Notion" (some "not found") rfl

end Salet
